import Mathlib

/-! # Verification development for `reddit/redditbot.go`

A shallow embedding of the reddit feed plugin (`package reddit`) and proofs
about its comparator `RedditIdSlice.Less`, its per-post dispatcher
`Plugin.handlePost` and its polling loop `Plugin.runBot`.

Conventions of the embedding

* A Go `string` is a sequence of bytes: `GoString := List UInt8`.  String
  literals of the program are written `go "..."` (their UTF-8 bytes).
* A Go `error` value is `Option _`, `none` being `nil`.  A Go function that
  returns `(value, error)` returns a pair here as well, because the program
  is free to use the value next to a non-nil error (and `Less` does).
* Calls to collaborators outside the file (redis configuration store, discord
  session, post fetcher, logger) are effects.  They are recorded, in program
  order, in a trace of `Event`s, and their results come from a `Collaborators`
  record of transition functions over an arbitrary world state `σ`, so that
  every pattern of results is covered.
* An index outside a slice panics in Go; the embedding returns `none` there.
-/

/-- A Go string: its bytes. -/
abbrev GoString := List UInt8

/-- The bytes (UTF-8) of a string literal of the program. -/
def go (s : String) : GoString := s.data.flatMap String.utf8EncodeChar

/-! ## `strconv.ParseInt` (Go standard library)

`Less` calls `strconv.ParseInt(s, 36, 64)` and uses the integer it returns
even when the error is non-nil, so the embedding follows the library function
statement by statement (Go 1.7, the release contemporary with the program;
later releases return the same values and error kinds for base 36 and bit
size 64).
`uint64` arithmetic is `Nat` arithmetic modulo `2 ^ 64`; `int64` values are
`Int`s obtained by two's complement reinterpretation. -/

namespace strconv

/-- The sentinel errors of package `strconv`; `ErrBase` stands for the
`invalid base` error. -/
inductive Err where
  | ErrSyntax
  | ErrRange
  | ErrBase
deriving DecidableEq, Repr

/-- Go's `*strconv.NumError`. -/
structure NumError where
  Func : String
  Num : GoString
  Err : Err
deriving DecidableEq, Repr

/-- The value of one digit byte, as computed by the `switch` inside the
loop of `ParseUint`; `none` is the `default:` case. -/
def digit (d : UInt8) : Option Nat :=
  let c := d.toNat
  if 48 ≤ c ∧ c ≤ 57 then some (c - 48)            -- '0' <= d && d <= '9'
  else if 97 ≤ c ∧ c ≤ 122 then some (c - 97 + 10)  -- 'a' <= d && d <= 'z'
  else if 65 ≤ c ∧ c ≤ 90 then some (c - 65 + 10)   -- 'A' <= d && d <= 'Z'
  else none

/-- The `for ; i < len(s); i++` loop of `ParseUint`, on the bytes still to be
read and the accumulator `n`.  Returns the `n` and the error kind with which
`ParseUint` leaves the loop. -/
def parseLoop (base cutoff maxVal : Nat) : List UInt8 → Nat → Nat × Option Err
  | [], n => (n, none)
  | d :: rest, n =>
    match digit d with
    | none => (0, some Err.ErrSyntax)
    | some v =>
      if v ≥ base then (0, some Err.ErrSyntax)
      else if n ≥ cutoff then (2 ^ 64 - 1, some Err.ErrRange)   -- n*base overflows
      else
        let n := (n * base) % 2 ^ 64
        let n1 := (n + v) % 2 ^ 64
        if n1 < n ∨ n1 > maxVal then (2 ^ 64 - 1, some Err.ErrRange)  -- n+v overflows
        else parseLoop base cutoff maxVal rest n1

/-- Go's `strconv.ParseUint(s, base, bitSize)`: the `uint64` and the error it
returns. -/
def ParseUint (s : GoString) (base bitSize : Nat) : Nat × Option NumError :=
  let bitSize := if bitSize = 0 then 64 else bitSize
  let fail (n : Nat) (e : Err) : Nat × Option NumError := (n, some ⟨"ParseUint", s, e⟩)
  let run (base : Nat) (digits : List UInt8) : Nat × Option NumError :=
    let cutoff := (2 ^ 64 - 1) / base + 1
    let maxVal := (2 ^ bitSize % 2 ^ 64 + 2 ^ 64 - 1) % 2 ^ 64
    match parseLoop base cutoff maxVal digits 0 with
    | (n, none) => (n, none)
    | (n, some e) => fail n e
  match s with
  | [] => fail 0 Err.ErrSyntax
  | c0 :: s1 =>
    if 2 ≤ base ∧ base ≤ 36 then run base s
    else if base = 0 then
      -- look for octal, hex prefix
      match c0.toNat, s1 with
      | 48, c1 :: s2 =>
        if c1.toNat = 120 ∨ c1.toNat = 88 then
          if s2 = [] then fail 0 Err.ErrSyntax else run 16 s2
        else run 8 s1
      | 48, [] => run 8 s1
      | _, _ => run 10 s
    else fail 0 Err.ErrBase

/-- The conversion `int64(u)` of a `uint64`. -/
def toInt64 (u : Nat) : Int :=
  if u % 2 ^ 64 < 2 ^ 63 then (u % 2 ^ 64 : Nat) else ((u % 2 ^ 64 : Nat) : Int) - 2 ^ 64

/-- Negation of an `int64` (wraps at the minimum). -/
def negInt64 (n : Int) : Int :=
  if n = -2 ^ 63 then n else -n

/-- Go's `strconv.ParseInt(s, base, bitSize)`: the `int64` and the error it
returns.  Both are returned in every case, as in Go. -/
def ParseInt (s : GoString) (base bitSize : Nat) : Int × Option NumError :=
  let bitSize := if bitSize = 0 then 64 else bitSize
  match s with
  | [] => (0, some ⟨"ParseInt", s, Err.ErrSyntax⟩)
  | c0 :: s1 =>
    -- pick off leading sign
    let neg := c0.toNat = 45
    let t := if c0.toNat = 43 then s1 else if c0.toNat = 45 then s1 else s
    -- convert unsigned and check range
    let (un, err) := ParseUint t base bitSize
    match err with
    | some ⟨_, _, Err.ErrSyntax⟩ => (0, some ⟨"ParseInt", s, Err.ErrSyntax⟩)
    | some ⟨_, _, Err.ErrBase⟩ => (0, some ⟨"ParseInt", s, Err.ErrBase⟩)
    | _ =>
      let cutoff := 2 ^ (bitSize - 1) % 2 ^ 64
      if ¬ neg ∧ un ≥ cutoff then
        (toInt64 (cutoff + 2 ^ 64 - 1), some ⟨"ParseInt", s, Err.ErrRange⟩)
      else if neg ∧ un > cutoff then
        (negInt64 (toInt64 cutoff), some ⟨"ParseInt", s, Err.ErrRange⟩)
      else
        let n := toInt64 un
        (if neg then negInt64 n else n, none)

end strconv

/-! ## `RedditIdSlice` -/

/-- One entry written through `logrus`: the error attached with `WithError`
(if any) and the message. -/
structure LogEntry where
  err : Option strconv.NumError
  msg : String
deriving DecidableEq, Repr

/-- Go: `type RedditIdSlice []string`. -/
abbrev RedditIdSlice := List GoString

namespace RedditIdSlice

/-- Go: `func (r RedditIdSlice) Len() int`. -/
def Len (r : RedditIdSlice) : Nat := r.length

/-- Go: `func (r RedditIdSlice) Less(i, j int) bool` with the entries it logs.
`none` is the run-time panic of an index out of range. -/
def Less (r : RedditIdSlice) (i j : Nat) : Option (Bool × List LogEntry) :=
  match r[i]? with
  | none => none
  | some ri =>
    let (a, err1) := strconv.ParseInt ri 36 64
    match r[j]? with
    | none => none
    | some rj =>
      let (b, err2) := strconv.ParseInt rj 36 64
      let log1 : List LogEntry :=
        match err1 with
        | some e => [⟨some e, "Failed parsing id"⟩]
        | none => []
      let log2 : List LogEntry :=
        match err2 with
        | some e => [⟨some e, "Failed parsing id"⟩]
        | none => []
      some (decide (a > b), log1 ++ log2)

/-- Go: `func (r RedditIdSlice) Swap(i, j int)`; `none` is the panic of an
index out of range. -/
def Swap (r : RedditIdSlice) (i j : Nat) : Option RedditIdSlice :=
  match r[i]?, r[j]? with
  | some ri, some rj => some ((r.set i rj).set j ri)
  | _, _ => none

end RedditIdSlice

/-! ## Data handled by the plugin -/

/-- Go: `error` values produced by the collaborators (redis, discord, reddit). -/
structure GoError where
  msg : String
deriving DecidableEq, Repr

/-- Go: the fields of `reddit.Link` the program reads. -/
structure Link where
  ID : GoString
  Author : GoString
  Subreddit : GoString
  Title : GoString
  Selftext : GoString
  URL : GoString
  IsSelf : Bool
deriving DecidableEq, Repr

/-- Go: the fields of `SubredditWatchItem` (one subscription record returned by
`GetConfig`) the program reads: the destination channel and the owning guild. -/
structure SubredditWatchItem where
  Guild : GoString
  Channel : GoString
deriving DecidableEq, Repr

/-- Go: `discordgo.MessageEmbedAuthor`. -/
structure MessageEmbedAuthor where
  URL : GoString
  Name : GoString
  IconURL : GoString
deriving DecidableEq, Repr

/-- Go: `discordgo.MessageEmbedProvider`. -/
structure MessageEmbedProvider where
  Name : GoString
  URL : GoString
deriving DecidableEq, Repr

/-- Go: `discordgo.MessageEmbed`, with the fields `handlePost` sets.  `Image`
and `Video` hold the `URL` of the pointed-to struct, `none` being `nil`. -/
structure MessageEmbed where
  Author : MessageEmbedAuthor
  Provider : MessageEmbedProvider
  Description : GoString
  URL : GoString
  Title : GoString
  Color : Nat
  Image : Option GoString
  Video : Option GoString
deriving DecidableEq, Repr

/-- A value of a `logrus.Fields` entry. -/
inductive LogValue where
  | int (n : Int)
  | str (s : GoString)
deriving DecidableEq, Repr

/-- The effects of the plugin, in program order: calls to collaborators and
log lines. -/
inductive Event where
  /-- `GetConfig(redisClient, key)` -/
  | GetConfig (key : GoString)
  /-- `common.BotSession.ChannelMessageSendEmbed(channel, embed)` -/
  | ChannelMessageSendEmbed (channel : GoString) (embed : MessageEmbed)
  /-- `fetcher.GetNewPosts()` -/
  | GetNewPosts
  /-- `common.GetRedisJson(client, key, &result)` -/
  | GetRedisJson (key : String)
  /-- `logrus.WithError(err).Error(msg)` -/
  | LogError (err : GoError) (msg : String)
  /-- `logrus.WithFields(fields).Info(msg)` and `logrus.Info(msg)` -/
  | LogInfo (fields : List (String × LogValue)) (msg : String)
  /-- `wg.Done()` on the wait group received from `stopFeedChan` -/
  | Done
deriving DecidableEq, Repr

/-- The collaborators of the plugin, as transition functions on a world state
`σ`.  A function returning `(value, error)` in Go returns both here.
`ToLower` is `strings.ToLower`, `CutStringShort` is `common.CutStringShort`
and `Host` is `common.Conf.Host`; none of the three is declared in the file. -/
structure Collaborators (σ : Type) where
  GetConfig : σ → GoString → σ × List SubredditWatchItem × Option GoError
  ChannelMessageSendEmbed : σ → GoString → MessageEmbed → σ × Option GoError
  GetNewPosts : σ → σ × List Link × Option GoError
  GetRedisJson : σ → String → σ × List GoString × Option GoError
  NewPostFetcher : σ → List GoString → σ
  ToLower : GoString → GoString
  CutStringShort : GoString → Nat → GoString
  Host : GoString

/-! ## `Plugin.handlePost` -/

namespace Plugin

/-- The inner loop of `handlePost` (`for _, currentChannel := range channels`):
`true` when it leaves through `continue OUTER`. -/
def alreadyListed (target : GoString) : List GoString → Bool
  | [] => false
  | currentChannel :: rest =>
    if currentChannel = target then true else alreadyListed target rest

/-- The loop labelled `OUTER` of `handlePost`, on the records still to be
visited and the `channels` slice built so far. -/
def collectChannels : List SubredditWatchItem → List GoString → List GoString
  | [], channels => channels
  | c :: rest, channels =>
    let c : SubredditWatchItem := if c.Channel = [] then { c with Channel := c.Guild } else c
    if alreadyListed c.Channel channels then collectChannels rest channels
    else collectChannels rest (channels ++ [c.Channel])

/-- The embed `handlePost` builds for a post. -/
def buildEmbed {σ : Type} (env : Collaborators σ) (post : Link) : MessageEmbed :=
  let author := post.Author
  let sub := post.Subreddit
  let embed : MessageEmbed :=
    { Author :=
        { URL := go "https://reddit.com/u/" ++ author
          Name := author
          IconURL := go "https://" ++ env.Host ++ go "/static/img/reddit_icon.png" }
      Provider := { Name := go "Reddit", URL := go "https://reddit.com" }
      Description := go "**" ++ post.Title ++ go "**\n"
      URL := []
      Title := []
      Color := 0
      Image := none
      Video := none }
  let embed := { embed with URL := go "https://redd.it/" ++ post.ID }
  if post.IsSelf then
    { embed with
      Title := go "New self post in /r/" ++ sub
      Description := embed.Description ++ env.CutStringShort post.Selftext 250
      Color := 0xc3fc7e }
  else
    { embed with
      Color := 0x718aed
      Title := go "New link post in /r/" ++ sub
      Description := embed.Description ++ post.URL
      Image := some post.URL
      Video := some post.URL }

/-- The final loop of `handlePost` (`for _, channel := range channels`): one
send per channel, a failed send is logged and the loop goes on. -/
def sendLoop {σ : Type} (env : Collaborators σ) (embed : MessageEmbed) :
    List GoString → σ → σ × List Event
  | [], s => (s, [])
  | channel :: rest, s =>
    let (s1, err) := env.ChannelMessageSendEmbed s channel embed
    let logged : List Event :=
      match err with
      | some e => [Event.LogError e "Error posting message"]
      | none => []
    let (s2, evs) := sendLoop env embed rest s1
    (s2, Event.ChannelMessageSendEmbed channel embed :: logged ++ evs)

/-- Go: `func (p *Plugin) handlePost(post *reddit.Link, redisClient *redis.Client) error`.
Returns the world after the call, the effects in order and the returned
error. -/
def handlePost {σ : Type} (env : Collaborators σ) (s : σ) (post : Link) :
    σ × List Event × Option GoError :=
  let key := go "global_subreddit_watch:" ++ env.ToLower post.Subreddit
  let (s1, config, err) := env.GetConfig s key
  match err with
  | some e => (s1, [Event.GetConfig key, Event.LogError e "Failed getting config from redis"], some e)
  | none =>
    -- get the channels that listens to this subreddit, if any
    let channels := collectChannels config []
    -- no channels nothing to do...
    if channels.length < 1 then (s1, [Event.GetConfig key], none)
    else
      let info := Event.LogInfo
        [("num_channels", LogValue.int channels.length), ("subreddit", LogValue.str post.Subreddit)]
        "Found matched reddit post"
      let embed := buildEmbed env post
      let (s2, evs) := sendLoop env embed channels s1
      (s2, Event.GetConfig key :: info :: evs, none)

/-! ## `Plugin.runBot` -/

/-- Go: `func getLastIds(client *redis.Client) []string`. -/
def getLastIds {σ : Type} (env : Collaborators σ) (s : σ) : σ × List Event × List GoString :=
  let (s1, result, err) := env.GetRedisJson s "reddit_last_links"
  let logged : List Event :=
    match err with
    | some e => [Event.LogError e "Failed retrieving post buffer from redis"]
    | none => []
  (s1, Event.GetRedisJson "reddit_last_links" :: logged, result)

/-- The case of the `select` statement of `runBot` that fires: a wait group
arrives on `stopFeedChan`, or the ticker fires. -/
inductive Select where
  | stop
  | tick
deriving DecidableEq, Repr

/-- The two states of the dispatch loop. -/
inductive LoopState where
  | Running
  | Stopped
deriving DecidableEq, Repr

/-- The loop `for _, v := range links { p.handlePost(v, redisClient) }` of
`runBot`; the error returned by `handlePost` is discarded. -/
def handleLinks {σ : Type} (env : Collaborators σ) : List Link → σ → σ × List Event
  | [], s => (s, [])
  | v :: rest, s =>
    let (s1, evs1, _) := handlePost env s v
    let (s2, evs2) := handleLinks env rest s1
    (s2, evs1 ++ evs2)

/-- One iteration of the `for` loop of `runBot`, for the `select` case that
fired: the world after it, its effects and the state of the loop
(`Stopped` after `return`, `Running` when the loop goes round again). -/
def iteration {σ : Type} (env : Collaborators σ) (s : σ) : Select → σ × List Event × LoopState
  | Select.stop => (s, [Event.Done], LoopState.Stopped)
  | Select.tick =>
    let (s1, links, err) := env.GetNewPosts s
    match err with
    | some e => (s1, [Event.GetNewPosts, Event.LogError e "Error fetchind new links"],
        LoopState.Running)
    | none =>
      if links.length < 1 then (s1, [Event.GetNewPosts], LoopState.Running)
      else
        let (s2, evs) := handleLinks env links s1
        (s2, Event.GetNewPosts :: evs, LoopState.Running)

/-- The `for` loop of `runBot` along a finite schedule of `select` outcomes.
The loop leaves only through the `stop` case; when the schedule is used up
while `Running` the loop is blocked in `select`. -/
def loop {σ : Type} (env : Collaborators σ) : List Select → σ → σ × List Event × LoopState
  | [], s => (s, [], LoopState.Running)
  | sel :: rest, s =>
    match iteration env s sel with
    | (s1, evs, LoopState.Stopped) => (s1, evs, LoopState.Stopped)
    | (s1, evs, LoopState.Running) =>
      let (s2, evs2, st) := loop env rest s1
      (s2, evs ++ evs2, st)

/-- Go: `func (p *Plugin) runBot()`, along a schedule of `select` outcomes.
The construction of the reddit and redis clients has no effect recorded
here. -/
def runBot {σ : Type} (env : Collaborators σ) (s : σ) (schedule : List Select) :
    σ × List Event × LoopState :=
  let (s1, evs1, storedLastIds) := getLastIds env s
  let info : List Event :=
    if storedLastIds.length > 0 then [Event.LogInfo [] "Found lastids, attempting resuming"]
    else []
  let s2 := env.NewPostFetcher s1 storedLastIds
  let (s3, evs3, st) := loop env schedule s2
  (s3, evs1 ++ info ++ evs3, st)

end Plugin

/-! ## Observations on traces -/

/-- The delivery calls of a trace, in order. -/
def deliveries : List Event → List (GoString × MessageEmbed)
  | [] => []
  | Event.ChannelMessageSendEmbed channel embed :: rest => (channel, embed) :: deliveries rest
  | _ :: rest => deliveries rest

/-- The keys of the configuration lookups of a trace, in order. -/
def lookups : List Event → List GoString
  | [] => []
  | Event.GetConfig key :: rest => key :: lookups rest
  | _ :: rest => lookups rest

/-! ## Specification-side definitions

Definitions written from the specification's words, against which the
embedded code is compared. -/

namespace Spec

/-- The digits of base 36, in order of value. -/
def alphabet : GoString := go "0123456789abcdefghijklmnopqrstuvwxyz"

/-- The same digits with upper-case letters. -/
def alphabetUpper : GoString := go "0123456789ABCDEFGHIJKLMNOPQRSTUVWXYZ"

/-- The value of a base-36 digit: its position in the alphabet. -/
def digitValue (c : UInt8) : Option Nat :=
  if c ∈ alphabet then some (alphabet.indexOf c)
  else if c ∈ alphabetUpper then some (alphabetUpper.indexOf c)
  else none

/-- The values of the digits of a string, if all its bytes are digits. -/
def digitValues : List UInt8 → Option (List Nat)
  | [] => some []
  | c :: cs =>
    match digitValue c, digitValues cs with
    | some d, some ds => some (d :: ds)
    | _, _ => none

/-- The integer a string denotes in base 36, if it denotes one that fits a
signed 64-bit integer: an optional sign, then at least one digit, most
significant first. -/
def decode (s : GoString) : Option Int :=
  let neg : Bool := s.head? = some 45
  let body := if s.head? = some 43 ∨ s.head? = some 45 then s.tail else s
  if body = [] then none
  else
    match digitValues body with
    | none => none
    | some ds =>
      let m : Nat := Nat.ofDigits 36 ds.reverse
      let v : Int := if neg then -(m : Int) else (m : Int)
      if -2 ^ 63 ≤ v ∧ v < 2 ^ 63 then some v else none

/-- The effective destination of a subscription record, in the words of the
specification: the record's destination, or the owner-level default when the
destination is empty. -/
def effectiveDestination (c : SubredditWatchItem) : GoString :=
  if c.Channel = [] then c.Guild else c.Channel

/-- The distinct elements of a list, in order of first occurrence. -/
def firstOccurrences : List GoString → List GoString
  | [] => []
  | x :: xs => x :: (firstOccurrences xs).filter (fun y => decide (y ≠ x))

/-- The delivery attempts for a destination list with their outcomes, in list
order: every destination is attempted once, whatever the earlier outcomes. -/
def attempts {σ : Type} (env : Collaborators σ) (embed : MessageEmbed) :
    List GoString → σ → List (GoString × Option GoError)
  | [], _ => []
  | channel :: rest, s =>
    (channel, (env.ChannelMessageSendEmbed s channel embed).2) ::
      attempts env embed rest (env.ChannelMessageSendEmbed s channel embed).1

/-- The effects of one delivery attempt: the send, and a log line when it
failed. -/
def attemptEvents (embed : MessageEmbed) (a : GoString × Option GoError) : List Event :=
  match a.2 with
  | some e => [Event.ChannelMessageSendEmbed a.1 embed, Event.LogError e "Error posting message"]
  | none => [Event.ChannelMessageSendEmbed a.1 embed]

/-- The bytes of an id after its optional sign. -/
def unsigned (s : GoString) : GoString :=
  if s.head? = some 43 ∨ s.head? = some 45 then s.tail else s

/-- The values of the leading digits of a string, up to its first byte that
is not a base-36 digit. -/
def leadingDigits : List UInt8 → List Nat
  | [] => []
  | c :: cs =>
    match digitValue c with
    | some d => d :: leadingDigits cs
    | none => []

/-- The kind of failure of an id that denotes no integer.  It is a syntax
error when no byte follows the sign, or when a byte that is not a digit
follows leading digits whose value is below `2 ^ 64`; it is a range error
otherwise. -/
def failureKind (s : GoString) : strconv.Err :=
  if unsigned s = [] ∨
      ((leadingDigits (unsigned s)).length < (unsigned s).length ∧
        Nat.ofDigits 36 (leadingDigits (unsigned s)).reverse < 2 ^ 64)
  then strconv.Err.ErrSyntax
  else strconv.Err.ErrRange

/-- The integer that stands for an id that denotes no integer: 0 after a
syntax error, the bound of the `int64` range on the side of the sign after a
range error. -/
def fallback (s : GoString) : Int :=
  match failureKind s with
  | strconv.Err.ErrSyntax => 0
  | _ => if s.head? = some 45 then -2 ^ 63 else 2 ^ 63 - 1

end Spec

/-! ## Auxiliary definitions for the proofs -/

/-- Horner evaluation of base-36 digits from an initial accumulator: what the
loop of `ParseUint` computes when nothing overflows. -/
def horner (n : Nat) (ds : List Nat) : Nat := ds.foldl (fun n d => n * 36 + d) n

/-- What `ParseInt s 36 64` makes of the result `r` of `ParseUint`, `neg`
telling whether `s` starts with a minus sign. -/
def finish (s : GoString) (neg : Bool) (r : Nat × Option strconv.NumError) :
    Int × Option strconv.NumError :=
  match r.2 with
  | some ⟨_, _, strconv.Err.ErrSyntax⟩ => (0, some ⟨"ParseInt", s, strconv.Err.ErrSyntax⟩)
  | some ⟨_, _, strconv.Err.ErrBase⟩ => (0, some ⟨"ParseInt", s, strconv.Err.ErrBase⟩)
  | _ =>
    if neg = false ∧ r.1 ≥ 2 ^ 63 then (2 ^ 63 - 1, some ⟨"ParseInt", s, strconv.Err.ErrRange⟩)
    else if neg = true ∧ r.1 > 2 ^ 63 then (-2 ^ 63, some ⟨"ParseInt", s, strconv.Err.ErrRange⟩)
    else (if neg then strconv.negInt64 (strconv.toInt64 r.1) else strconv.toInt64 r.1, none)

/-- The value/error pairs `ParseInt s 36 64` returns when it fails. -/
def IsFallback (s : GoString) (r : Int × Option strconv.NumError) : Prop :=
  r = (0, some ⟨"ParseInt", s, strconv.Err.ErrSyntax⟩) ∨
  r = (2 ^ 63 - 1, some ⟨"ParseInt", s, strconv.Err.ErrRange⟩) ∨
  r = (-2 ^ 63, some ⟨"ParseInt", s, strconv.Err.ErrRange⟩)

/-! ## A concrete world, used to instantiate the theorems -/

namespace Demo

/-- Lower-casing of the ASCII letters of a string (what `strings.ToLower`
does on ASCII input). -/
def asciiLower (s : GoString) : GoString :=
  s.map (fun c => if 65 ≤ c.toNat ∧ c.toNat ≤ 90 then UInt8.ofNat (c.toNat + 32) else c)

/-- A world whose state counts the calls made so far.  The configuration
store knows the feed `golang` (three records, two of them with the same
effective destination) and is unreachable for the feed `down`; the send to
channel `X` fails; every second fetch fails. -/
def env : Collaborators Nat where
  GetConfig := fun n key =>
    if key = go "global_subreddit_watch:golang" then
      (n + 1, [⟨go "X", []⟩, ⟨go "G", go "Y"⟩, ⟨go "G", go "X"⟩], none)
    else if key = go "global_subreddit_watch:down" then
      (n + 1, [], some ⟨"redis: connection refused"⟩)
    else (n + 1, [], none)
  ChannelMessageSendEmbed := fun n channel _ =>
    (n + 1, if channel = go "X" then some ⟨"HTTP 403 Forbidden"⟩ else none)
  GetNewPosts := fun n =>
    if n % 2 = 0 then (n + 1, [], some ⟨"reddit: timeout"⟩)
    else (n + 1,
      [⟨go "b", go "alice", go "down", go "t1", [], go "u1", false⟩,
       ⟨go "a", go "bob", go "GoLang", go "t2", go "text", go "u2", true⟩], none)
  GetRedisJson := fun n _ => (n + 1, [], none)
  NewPostFetcher := fun n _ => n
  ToLower := asciiLower
  CutStringShort := fun s l => s.take l
  Host := go "example.org"

/-- A post in the feed `GoLang`. -/
def post : Link := ⟨go "a", go "bob", go "GoLang", go "t2", go "text", go "u2", true⟩

end Demo

/-! ## Theorems: `ParseInt` against the specification of decoding -/

set_option maxRecDepth 100000 in
theorem digit_eq_aux : ∀ n : Fin 256, strconv.digit ⟨⟨n⟩⟩ = Spec.digitValue ⟨⟨n⟩⟩ := by
  decide

theorem digit_eq (c : UInt8) : strconv.digit c = Spec.digitValue c := by
  obtain ⟨⟨n⟩⟩ := c
  exact digit_eq_aux n

theorem digit_lt (c : UInt8) (v : Nat) (h : strconv.digit c = some v) : v < 36 := by
  unfold strconv.digit at h
  simp only at h
  split_ifs at h <;> simp at h <;> omega

theorem horner_nil (n : Nat) : horner n [] = n := rfl

theorem horner_cons (n d : Nat) (ds : List Nat) : horner n (d :: ds) = horner (n * 36 + d) ds := rfl

theorem horner_mono (ds : List Nat) (n : Nat) : n ≤ horner n ds := by
  induction ds generalizing n with
  | nil => simp [horner_nil]
  | cons d ds ih =>
    rw [horner_cons]
    have := ih (n * 36 + d)
    omega

theorem horner_eq_ofDigits (ds : List Nat) (n : Nat) :
    horner n ds = n * 36 ^ ds.length + Nat.ofDigits 36 ds.reverse := by
  induction ds generalizing n with
  | nil => simp [horner_nil]
  | cons d ds ih =>
    rw [horner_cons, ih, List.reverse_cons, Nat.ofDigits_append, Nat.ofDigits_singleton,
      List.length_reverse, List.length_cons]
    ring

theorem digitValues_cons_some (c : UInt8) (cs : List UInt8) (ds : List Nat)
    (h : Spec.digitValues (c :: cs) = some ds) :
    ∃ d ds1, strconv.digit c = some d ∧ d < 36 ∧ Spec.digitValues cs = some ds1 ∧ ds = d :: ds1 := by
  rw [Spec.digitValues, ← digit_eq] at h
  cases hd : strconv.digit c with
  | none => simp [hd] at h
  | some d =>
    cases hs : Spec.digitValues cs with
    | none => simp [hd, hs] at h
    | some ds1 =>
      simp [hd, hs] at h
      exact ⟨d, ds1, rfl, digit_lt c d hd, rfl, h.symm⟩

theorem parseLoop_ok (cs : List UInt8) (ds : List Nat) (n : Nat)
    (h : Spec.digitValues cs = some ds) (hv : horner n ds < 2 ^ 64) :
    strconv.parseLoop 36 512409557603043101 18446744073709551615 cs n = (horner n ds, none) := by
  induction cs generalizing n ds with
  | nil =>
    simp [Spec.digitValues] at h
    subst h
    simp [strconv.parseLoop, horner_nil]
  | cons c cs ih =>
    obtain ⟨d, ds1, hd, hlt, hs, rfl⟩ := digitValues_cons_some c cs ds h
    rw [horner_cons] at hv
    have hm := horner_mono ds1 (n * 36 + d)
    have key := ih ds1 (n * 36 + d) hs hv
    rw [strconv.parseLoop, hd]
    simp only []
    have h1 : ¬ d ≥ 36 := by omega
    have h2 : ¬ n ≥ 512409557603043101 := by omega
    have h3 : (n * 36) % 2 ^ 64 = n * 36 := by omega
    have h4 : (n * 36 + d) % 2 ^ 64 = n * 36 + d := by omega
    rw [if_neg h1, if_neg h2, h3, h4, if_neg (by omega), horner_cons]
    exact key

theorem parseLoop_range (cs : List UInt8) (ds : List Nat) (n : Nat)
    (h : Spec.digitValues cs = some ds) (hn : n < 2 ^ 64) (hv : 2 ^ 64 ≤ horner n ds) :
    strconv.parseLoop 36 512409557603043101 18446744073709551615 cs n
      = (2 ^ 64 - 1, some strconv.Err.ErrRange) := by
  induction cs generalizing n ds with
  | nil =>
    simp [Spec.digitValues] at h
    subst h
    rw [horner_nil] at hv
    omega
  | cons c cs ih =>
    obtain ⟨d, ds1, hd, hlt, hs, rfl⟩ := digitValues_cons_some c cs ds h
    rw [horner_cons] at hv
    rw [strconv.parseLoop, hd]
    simp only []
    have h1 : ¬ d ≥ 36 := by omega
    rw [if_neg h1]
    by_cases h2 : n ≥ 512409557603043101
    · rw [if_pos h2]
    · rw [if_neg h2]
      have h3 : (n * 36) % 2 ^ 64 = n * 36 := by omega
      rw [h3]
      by_cases h5 : n * 36 + d < 2 ^ 64
      · have h4 : (n * 36 + d) % 2 ^ 64 = n * 36 + d := by omega
        rw [h4, if_neg (by omega)]
        exact ih ds1 (n * 36 + d) hs h5 hv
      · rw [if_pos (by omega)]

theorem parseLoop_bad (cs : List UInt8) (n : Nat) (h : Spec.digitValues cs = none) :
    strconv.parseLoop 36 512409557603043101 18446744073709551615 cs n
        = (0, some strconv.Err.ErrSyntax) ∨
      strconv.parseLoop 36 512409557603043101 18446744073709551615 cs n
        = (2 ^ 64 - 1, some strconv.Err.ErrRange) := by
  induction cs generalizing n with
  | nil => simp [Spec.digitValues] at h
  | cons c cs ih =>
    rw [strconv.parseLoop]
    cases hd : strconv.digit c with
    | none => simp
    | some d =>
      simp only []
      have hlt := digit_lt c d hd
      rw [if_neg (by omega)]
      have hs : Spec.digitValues cs = none := by
        rw [Spec.digitValues, ← digit_eq, hd] at h
        cases hs : Spec.digitValues cs with
        | none => rfl
        | some ds1 => simp [hs] at h
      split_ifs
      · right; rfl
      · right; rfl
      · exact ih _ hs

theorem ParseUint_36_64 (c : UInt8) (cs : List UInt8) :
    strconv.ParseUint (c :: cs) 36 64 =
      match strconv.parseLoop 36 512409557603043101 18446744073709551615 (c :: cs) 0 with
      | (n, none) => (n, none)
      | (n, some e) => (n, some ⟨"ParseUint", c :: cs, e⟩) := by
  simp only [strconv.ParseUint]
  norm_num

/-- The three ways `ParseUint t 36 64` can end. -/
theorem ParseUint_cases (t : GoString) :
    (Spec.digitValues t = none ∨ t = [] →
      strconv.ParseUint t 36 64 = (0, some ⟨"ParseUint", t, strconv.Err.ErrSyntax⟩) ∨
      strconv.ParseUint t 36 64 = (2 ^ 64 - 1, some ⟨"ParseUint", t, strconv.Err.ErrRange⟩)) ∧
    (∀ ds, t ≠ [] → Spec.digitValues t = some ds →
      (horner 0 ds < 2 ^ 64 → strconv.ParseUint t 36 64 = (horner 0 ds, none)) ∧
      (2 ^ 64 ≤ horner 0 ds →
        strconv.ParseUint t 36 64 = (2 ^ 64 - 1, some ⟨"ParseUint", t, strconv.Err.ErrRange⟩))) := by
  cases t with
  | nil =>
    refine ⟨fun _ => Or.inl ?_, fun ds h => absurd rfl h⟩
    simp [strconv.ParseUint]
  | cons c cs =>
    rw [ParseUint_36_64]
    refine ⟨fun h => ?_, fun ds _ h => ⟨fun hv => ?_, fun hv => ?_⟩⟩
    · rcases h with h | h
      · rcases parseLoop_bad (c :: cs) 0 h with h1 | h1 <;> rw [h1]
        · left; rfl
        · right; rfl
      · cases h
    · rw [parseLoop_ok (c :: cs) ds 0 h hv]
    · rw [parseLoop_range (c :: cs) ds 0 h (by norm_num) hv]

theorem toNat_eq_iff (c : UInt8) (k : Nat) (hk : k < 256) : c.toNat = k ↔ c = UInt8.ofNat k := by
  have hk2 : (UInt8.ofNat k).toNat = k := UInt8.toNat_ofNat_of_lt hk
  constructor
  · intro h
    exact UInt8.toNat.inj (h.trans hk2.symm)
  · intro h
    rw [h, hk2]

theorem ParseInt_cons (c0 : UInt8) (s1 : List UInt8) :
    strconv.ParseInt (c0 :: s1) 36 64 =
      finish (c0 :: s1) (decide (c0 = 45))
        (strconv.ParseUint (if c0 = 43 ∨ c0 = 45 then s1 else c0 :: s1) 36 64) := by
  have h45 : c0.toNat = 45 ↔ c0 = 45 := toNat_eq_iff c0 45 (by norm_num)
  have h43 : c0.toNat = 43 ↔ c0 = 43 := toNat_eq_iff c0 43 (by norm_num)
  have hb : (if c0 = 43 then s1 else if c0 = 45 then s1 else c0 :: s1)
      = (if c0 = 43 ∨ c0 = 45 then s1 else c0 :: s1) := by
    by_cases h1 : c0 = 43 <;> by_cases h2 : c0 = 45 <;> simp [h1, h2]
  have e0 : (if 64 = 0 then 64 else 64) = 64 := by norm_num
  have e1 : strconv.toInt64 (2 ^ (64 - 1) % 2 ^ 64 + 2 ^ 64 - 1) = 2 ^ 63 - 1 := by
    norm_num [strconv.toInt64]
  have e2 : strconv.negInt64 (strconv.toInt64 (2 ^ (64 - 1) % 2 ^ 64)) = -2 ^ 63 := by
    norm_num [strconv.toInt64, strconv.negInt64]
  have e3 : 2 ^ (64 - 1) % 2 ^ 64 = 2 ^ 63 := by norm_num
  simp only [strconv.ParseInt, finish, h45, h43, hb, e0, e1, e2]
  rw [e3]
  generalize strconv.ParseUint (if c0 = 43 ∨ c0 = 45 then s1 else c0 :: s1) 36 64 = r
  obtain ⟨un, err⟩ := r
  rcases err with _ | ⟨f, n, e⟩
  · simp
  · cases e <;> simp

theorem finish_syntax (s f : GoString) (neg : Bool) (fn : String) (n : Nat) :
    finish s neg (n, some ⟨fn, f, strconv.Err.ErrSyntax⟩)
      = (0, some ⟨"ParseInt", s, strconv.Err.ErrSyntax⟩) := rfl

theorem finish_range (s f : GoString) (neg : Bool) (fn : String) :
    finish s neg (2 ^ 64 - 1, some ⟨fn, f, strconv.Err.ErrRange⟩)
      = (if neg then -2 ^ 63 else 2 ^ 63 - 1, some ⟨"ParseInt", s, strconv.Err.ErrRange⟩) := by
  cases neg <;> simp [finish]

theorem finish_none (s : GoString) (neg : Bool) (m : Nat) (hm : m < 2 ^ 64) :
    finish s neg (m, none)
      = if (if neg then m ≤ 2 ^ 63 else m < 2 ^ 63)
        then (if neg then -(m : Int) else (m : Int), none)
        else (if neg then -2 ^ 63 else 2 ^ 63 - 1, some ⟨"ParseInt", s, strconv.Err.ErrRange⟩) := by
  have h1 : m % 18446744073709551616 = m := Nat.mod_eq_of_lt hm
  have h2 : (m : Int) % 18446744073709551616 = m := by omega
  norm_num at hm
  cases neg
  · by_cases h : m < 9223372036854775808
    · have h3 : ¬ 9223372036854775808 ≤ m := by omega
      simp [finish, strconv.toInt64, h1, h2, h, h3]
    · have h3 : 9223372036854775808 ≤ m := by omega
      simp [finish, h, h3]
  · by_cases h : m ≤ 9223372036854775808
    · have h3 : ¬ 9223372036854775808 < m := by omega
      by_cases h4 : m < 9223372036854775808
      · have h5 : ¬ (-(m : Int) = 9223372036854775808) := by omega
        have h6 : ¬ ((m : Int) = -9223372036854775808) := by omega
        simp [finish, strconv.toInt64, strconv.negInt64, h1, h2, h, h3, h4, h5, h6]
      · have h5 : m = 9223372036854775808 := by omega
        subst h5
        norm_num [finish, strconv.toInt64, strconv.negInt64]
    · have h3 : 9223372036854775808 < m := by omega
      simp [finish, h, h3]

theorem decode_cons (c0 : UInt8) (s1 : List UInt8) :
    Spec.decode (c0 :: s1) =
      if (if c0 = 43 ∨ c0 = 45 then s1 else c0 :: s1) = [] then none
      else
        match Spec.digitValues (if c0 = 43 ∨ c0 = 45 then s1 else c0 :: s1) with
        | none => none
        | some ds =>
          if -2 ^ 63 ≤ (if c0 = 45 then -(horner 0 ds : Int) else (horner 0 ds : Int)) ∧
              (if c0 = 45 then -(horner 0 ds : Int) else (horner 0 ds : Int)) < 2 ^ 63
          then some (if c0 = 45 then -(horner 0 ds : Int) else (horner 0 ds : Int)) else none := by
  simp only [Spec.decode, List.head?_cons, List.tail_cons, Option.some.injEq, decide_eq_true_eq,
    horner_eq_ofDigits, zero_mul, zero_add]

theorem finish_fallback (s t : GoString) (neg : Bool) (r : Nat × Option strconv.NumError)
    (h : r = (0, some ⟨"ParseUint", t, strconv.Err.ErrSyntax⟩) ∨
      r = (2 ^ 64 - 1, some ⟨"ParseUint", t, strconv.Err.ErrRange⟩)) :
    IsFallback s (finish s neg r) := by
  rcases h with h | h
  · rw [h, finish_syntax]
    exact Or.inl rfl
  · rw [h, finish_range]
    cases neg
    · exact Or.inr (Or.inl rfl)
    · exact Or.inr (Or.inr rfl)

/-- `ParseInt s 36 64` refines the specification `Spec.decode`: it succeeds
exactly on the strings that denote a base-36 integer in the `int64` range and
then returns that integer; otherwise it returns one of three fallback values
next to a non-nil error. -/
theorem ParseInt_refines (s : GoString) :
    (∀ v, Spec.decode s = some v → strconv.ParseInt s 36 64 = (v, none)) ∧
    (Spec.decode s = none → IsFallback s (strconv.ParseInt s 36 64)) := by
  cases s with
  | nil =>
    refine ⟨fun v h => ?_, fun _ => Or.inl rfl⟩
    simp [Spec.decode] at h
  | cons c0 s1 =>
    rw [ParseInt_cons, decode_cons]
    generalize (if c0 = 43 ∨ c0 = 45 then s1 else c0 :: s1) = t
    have hU := ParseUint_cases t
    by_cases ht : t = []
    · rw [if_pos ht]
      exact ⟨fun v h => (by cases h), fun _ => finish_fallback _ t _ _ (hU.1 (Or.inr ht))⟩
    · rw [if_neg ht]
      cases hd : Spec.digitValues t with
      | none =>
        exact ⟨fun v h => (by cases h), fun _ => finish_fallback _ t _ _ (hU.1 (Or.inl hd))⟩
      | some ds =>
        obtain ⟨hok, hov⟩ := hU.2 ds ht hd
        simp only []
        by_cases hm : horner 0 ds < 2 ^ 64
        · rw [hok hm, finish_none _ _ _ hm]
          by_cases h45 : c0 = 45
          · simp only [h45, decide_True, if_true]
            by_cases hr : horner 0 ds ≤ 2 ^ 63
            · have : -2 ^ 63 ≤ -(horner 0 ds : Int) ∧ -(horner 0 ds : Int) < 2 ^ 63 := by
                constructor <;> omega
              rw [if_pos hr, if_pos this]
              exact ⟨fun v h => (by cases h; rfl), fun h => by cases h⟩
            · have : ¬ (-2 ^ 63 ≤ -(horner 0 ds : Int) ∧ -(horner 0 ds : Int) < 2 ^ 63) := by
                omega
              rw [if_neg hr, if_neg this]
              exact ⟨fun v h => (by cases h), fun _ => Or.inr (Or.inr rfl)⟩
          · simp only [h45, decide_False, if_false, Bool.false_eq_true]
            by_cases hr : horner 0 ds < 2 ^ 63
            · have : -2 ^ 63 ≤ (horner 0 ds : Int) ∧ (horner 0 ds : Int) < 2 ^ 63 := by
                constructor <;> omega
              rw [if_pos hr, if_pos this]
              exact ⟨fun v h => (by cases h; rfl), fun h => by cases h⟩
            · have : ¬ (-2 ^ 63 ≤ (horner 0 ds : Int) ∧ (horner 0 ds : Int) < 2 ^ 63) := by
                omega
              rw [if_neg hr, if_neg this]
              exact ⟨fun v h => (by cases h), fun _ => Or.inr (Or.inl rfl)⟩
        · have hm2 : 2 ^ 64 ≤ horner 0 ds := by omega
          have : ¬ (-2 ^ 63 ≤ (if c0 = 45 then -(horner 0 ds : Int) else (horner 0 ds : Int)) ∧
              (if c0 = 45 then -(horner 0 ds : Int) else (horner 0 ds : Int)) < 2 ^ 63) := by
            split_ifs <;> omega
          rw [if_neg this]
          exact ⟨fun v h => (by cases h), fun _ => finish_fallback _ t _ _ (Or.inr (hov hm2))⟩

theorem leadingDigits_of_digitValues (cs : List UInt8) (ds : List Nat)
    (h : Spec.digitValues cs = some ds) :
    Spec.leadingDigits cs = ds ∧ ds.length = cs.length := by
  induction cs generalizing ds with
  | nil =>
    simp [Spec.digitValues] at h
    subst h
    exact ⟨rfl, rfl⟩
  | cons c cs ih =>
    obtain ⟨d, ds1, hd, _, hs, rfl⟩ := digitValues_cons_some c cs ds h
    obtain ⟨h1, h2⟩ := ih ds1 hs
    rw [digit_eq] at hd
    simp [Spec.leadingDigits, hd, h1, h2]

theorem leadingDigits_length_le (cs : List UInt8) :
    (Spec.leadingDigits cs).length ≤ cs.length := by
  induction cs with
  | nil => simp [Spec.leadingDigits]
  | cons c cs ih =>
    rw [Spec.leadingDigits]
    cases Spec.digitValue c with
    | none => simp
    | some d => simpa using ih

theorem leadingDigits_of_no_digitValues (cs : List UInt8) (h : Spec.digitValues cs = none) :
    (Spec.leadingDigits cs).length < cs.length := by
  induction cs with
  | nil => simp [Spec.digitValues] at h
  | cons c cs ih =>
    rw [Spec.leadingDigits]
    cases hd : Spec.digitValue c with
    | none => simp
    | some d =>
      have hs : Spec.digitValues cs = none := by
        rw [Spec.digitValues, hd] at h
        cases hs : Spec.digitValues cs with
        | none => rfl
        | some ds1 => simp [hs] at h
      simpa using ih hs

/-- The loop of `ParseUint` on a string with a byte that is not a digit: a
syntax error, unless the digits before that byte overflow first. -/
theorem parseLoop_stops (cs : List UInt8) (n : Nat) (hn : n < 2 ^ 64)
    (hlt : (Spec.leadingDigits cs).length < cs.length) :
    strconv.parseLoop 36 512409557603043101 18446744073709551615 cs n =
      if horner n (Spec.leadingDigits cs) < 2 ^ 64 then (0, some strconv.Err.ErrSyntax)
      else (2 ^ 64 - 1, some strconv.Err.ErrRange) := by
  induction cs generalizing n with
  | nil => simp at hlt
  | cons c cs ih =>
    rw [strconv.parseLoop, Spec.leadingDigits, ← digit_eq]
    cases hd : strconv.digit c with
    | none =>
      simp only [horner_nil]
      rw [if_pos hn]
    | some d =>
      simp only []
      have hdl := digit_lt c d hd
      have hlt2 : (Spec.leadingDigits cs).length < cs.length := by
        rw [Spec.leadingDigits, ← digit_eq, hd] at hlt
        simpa using hlt
      have hm := horner_mono (Spec.leadingDigits cs) (n * 36 + d)
      rw [if_neg (by omega), horner_cons]
      by_cases h2 : n ≥ 512409557603043101
      · rw [if_pos h2, if_neg (by omega)]
      · rw [if_neg h2]
        have h3 : (n * 36) % 2 ^ 64 = n * 36 := by omega
        rw [h3]
        by_cases h5 : n * 36 + d < 2 ^ 64
        · have h4 : (n * 36 + d) % 2 ^ 64 = n * 36 + d := by omega
          rw [h4, if_neg (by omega)]
          exact ih (n * 36 + d) h5 hlt2
        · rw [if_pos (by omega), if_neg (by omega)]

theorem failureKind_cons (c0 : UInt8) (s1 : List UInt8) :
    Spec.failureKind (c0 :: s1) =
      if (if c0 = 43 ∨ c0 = 45 then s1 else c0 :: s1) = [] ∨
          ((Spec.leadingDigits (if c0 = 43 ∨ c0 = 45 then s1 else c0 :: s1)).length
              < (if c0 = 43 ∨ c0 = 45 then s1 else c0 :: s1).length ∧
            horner 0 (Spec.leadingDigits (if c0 = 43 ∨ c0 = 45 then s1 else c0 :: s1)) < 2 ^ 64)
      then strconv.Err.ErrSyntax else strconv.Err.ErrRange := by
  simp only [Spec.failureKind, Spec.unsigned, List.head?_cons, List.tail_cons, Option.some.injEq,
    horner_eq_ofDigits, zero_mul, zero_add]

theorem fallback_cons (c0 : UInt8) (s1 : List UInt8) :
    Spec.fallback (c0 :: s1) =
      match Spec.failureKind (c0 :: s1) with
      | strconv.Err.ErrSyntax => 0
      | _ => if decide (c0 = 45) = true then -2 ^ 63 else 2 ^ 63 - 1 := by
  simp only [Spec.fallback, List.head?_cons, Option.some.injEq, decide_eq_true_eq]

/-- What `ParseInt s 36 64` returns for a string that denotes no integer: the
fallback value and the kind of failure given by the specification. -/
theorem ParseInt_fallback (s : GoString) (h : Spec.decode s = none) :
    strconv.ParseInt s 36 64 = (Spec.fallback s, some ⟨"ParseInt", s, Spec.failureKind s⟩) := by
  cases s with
  | nil => decide
  | cons c0 s1 =>
    rw [ParseInt_cons, fallback_cons, failureKind_cons]
    rw [decode_cons] at h
    generalize (if c0 = 43 ∨ c0 = 45 then s1 else c0 :: s1) = t at h ⊢
    have hU := ParseUint_cases t
    by_cases ht : t = []
    · subst ht
      rw [if_pos (Or.inl rfl)]
      rfl
    · obtain ⟨c, cs, rfl⟩ := List.exists_cons_of_ne_nil ht
      rw [if_neg ht] at h
      cases hd : Spec.digitValues (c :: cs) with
      | none =>
        have hlt := leadingDigits_of_no_digitValues (c :: cs) hd
        rw [ParseUint_36_64, parseLoop_stops (c :: cs) 0 (by norm_num) hlt]
        by_cases hv : horner 0 (Spec.leadingDigits (c :: cs)) < 2 ^ 64
        · rw [if_pos hv, if_pos (Or.inr ⟨hlt, hv⟩)]
          rfl
        · rw [if_neg hv, if_neg (by rintro (h1 | ⟨_, h2⟩); exact ht h1; exact hv h2)]
          exact finish_range _ (c :: cs) _ _
      | some ds =>
        obtain ⟨hp, hl⟩ := leadingDigits_of_digitValues (c :: cs) ds hd
        obtain ⟨hok, hov⟩ := hU.2 ds ht hd
        have hne : ¬ ((c :: cs) = [] ∨
            ((Spec.leadingDigits (c :: cs)).length < (c :: cs).length ∧
              horner 0 (Spec.leadingDigits (c :: cs)) < 2 ^ 64)) := by
          rintro (h1 | ⟨h2, _⟩)
          · exact ht h1
          · rw [hp, hl] at h2
            exact lt_irrefl _ h2
        rw [if_neg hne]
        rw [hd] at h
        simp only [] at h
        by_cases hm : horner 0 ds < 2 ^ 64
        · rw [hok hm, finish_none _ _ _ hm]
          by_cases h45 : c0 = 45
          · simp only [h45, decide_True, if_true] at h ⊢
            have hr : ¬ horner 0 ds ≤ 2 ^ 63 := by
              intro hr
              have : -2 ^ 63 ≤ -(horner 0 ds : Int) ∧ -(horner 0 ds : Int) < 2 ^ 63 := by
                constructor <;> omega
              rw [if_pos this] at h
              cases h
            rw [if_neg hr]
          · simp only [h45, decide_False, if_false, Bool.false_eq_true] at h ⊢
            have hr : ¬ horner 0 ds < 2 ^ 63 := by
              intro hr
              have : -2 ^ 63 ≤ (horner 0 ds : Int) ∧ (horner 0 ds : Int) < 2 ^ 63 := by
                constructor <;> omega
              rw [if_pos this] at h
              cases h
            rw [if_neg hr]
        · rw [hov (by omega)]
          exact finish_range _ (c :: cs) _ _

/-! ## The comparator -/

/-- The integer `Less` compares for an id: the first result of `ParseInt`,
whatever the error. -/
theorem Less_eq (r : RedditIdSlice) (i j : Nat) (x y : GoString)
    (hi : r[i]? = some x) (hj : r[j]? = some y) :
    RedditIdSlice.Less r i j =
      some (decide ((strconv.ParseInt x 36 64).1 > (strconv.ParseInt y 36 64).1),
        (match (strconv.ParseInt x 36 64).2 with
          | some e => [(⟨some e, "Failed parsing id"⟩ : LogEntry)]
          | none => []) ++
        (match (strconv.ParseInt y 36 64).2 with
          | some e => [(⟨some e, "Failed parsing id"⟩ : LogEntry)]
          | none => [])) := by
  simp only [RedditIdSlice.Less, hi, hj]

theorem Less_before_iff (r : RedditIdSlice) (i j : Nat) :
    (RedditIdSlice.Less r i j).map Prod.fst = some true ↔
      ∃ x y, r[i]? = some x ∧ r[j]? = some y ∧
        (strconv.ParseInt x 36 64).1 > (strconv.ParseInt y 36 64).1 := by
  cases hi : r[i]? with
  | none => simp [RedditIdSlice.Less, hi]
  | some x =>
    cases hj : r[j]? with
    | none => simp [RedditIdSlice.Less, hi, hj]
    | some y => simp [Less_eq r i j x y hi hj]

/-- C1: for ids that both denote base-36 integers in the `int64` range,
`Less(i, j)` is true exactly when the integer denoted by `r[i]` is greater
than the one denoted by `r[j]` (newest first), and nothing is logged. -/
theorem Less_orders_by_decoded_value (r : RedditIdSlice) (i j : Nat) (x y : GoString) (a b : Int)
    (hi : r[i]? = some x) (hj : r[j]? = some y)
    (ha : Spec.decode x = some a) (hb : Spec.decode y = some b) :
    RedditIdSlice.Less r i j = some (decide (a > b), []) ∧
      ((RedditIdSlice.Less r i j).map Prod.fst = some true ↔ a > b) := by
  have h := Less_eq r i j x y hi hj
  rw [(ParseInt_refines x).1 a ha, (ParseInt_refines y).1 b hb] at h
  rw [h]
  simp

/-- Instance of C1 on the slice `["10", "9"]`: as strings `"10" < "9"`, as
numbers 36 > 9, and `Less` follows the numbers. -/
theorem Less_orders_by_decoded_value_witness :
    RedditIdSlice.Less [go "10", go "9"] 0 1 = some (decide ((36 : Int) > 9), []) ∧
      ((RedditIdSlice.Less [go "10", go "9"] 0 1).map Prod.fst = some true ↔ (36 : Int) > 9) :=
  Less_orders_by_decoded_value [go "10", go "9"] 0 1 (go "10") (go "9") 36 9 rfl rfl
    (by decide) (by decide)

/-- C2, as stated, fails: the parsable id `"0"` does not sort before the
malformed id `"∅∅"`, and the parsable id `"5"` sorts after the id
`"zzzzzzzzzzzzzzzzzzzz"`, which is out of the `int64` range. -/
theorem Less_unparsable_not_always_last :
    (Spec.decode (go "0") = some 0 ∧ Spec.decode (go "∅∅") = none ∧
      (RedditIdSlice.Less [go "0", go "∅∅"] 0 1).map Prod.fst = some false) ∧
    (Spec.decode (go "5") = some 5 ∧ Spec.decode (go "zzzzzzzzzzzzzzzzzzzz") = none ∧
      (RedditIdSlice.Less [go "5", go "zzzzzzzzzzzzzzzzzzzz"] 0 1).map Prod.fst = some false ∧
      (RedditIdSlice.Less [go "5", go "zzzzzzzzzzzzzzzzzzzz"] 1 0).map Prod.fst = some true) := by
  decide

/-- C2 (amended): when `r[i]` denotes the integer `a` and `r[j]` denotes none,
`ParseInt` returns for `r[j]` a value next to the error: 0 with a syntax error
when `r[j]` has no byte after its sign or has a byte that is not a digit after
leading digits of value below `2^64`, and otherwise `2^63 - 1` (or `-2^63`
after a minus sign) with a range error.  The failure is logged once,
`Less(i, j)` is `a >` that value and `Less(j, i)` is that value `> a`.  So an
id with a syntax error sorts after every id that denotes a positive
integer. -/
theorem Less_unparsable_compares_as_fallback (r : RedditIdSlice) (i j : Nat) (x y : GoString)
    (a : Int) (hi : r[i]? = some x) (hj : r[j]? = some y)
    (ha : Spec.decode x = some a) (hb : Spec.decode y = none) :
    strconv.ParseInt y 36 64 = (Spec.fallback y, some ⟨"ParseInt", y, Spec.failureKind y⟩) ∧
    ((Spec.failureKind y = strconv.Err.ErrSyntax ∧ Spec.fallback y = 0) ∨
      (Spec.failureKind y = strconv.Err.ErrRange ∧
        (Spec.fallback y = 2 ^ 63 - 1 ∨ Spec.fallback y = -2 ^ 63))) ∧
    RedditIdSlice.Less r i j =
      some (decide (a > Spec.fallback y),
        [⟨some ⟨"ParseInt", y, Spec.failureKind y⟩, "Failed parsing id"⟩]) ∧
    RedditIdSlice.Less r j i =
      some (decide (Spec.fallback y > a),
        [⟨some ⟨"ParseInt", y, Spec.failureKind y⟩, "Failed parsing id"⟩]) ∧
    (Spec.failureKind y = strconv.Err.ErrSyntax → 0 < a →
      RedditIdSlice.Less r i j =
        some (true, [⟨some ⟨"ParseInt", y, strconv.Err.ErrSyntax⟩, "Failed parsing id"⟩]) ∧
      RedditIdSlice.Less r j i =
        some (false, [⟨some ⟨"ParseInt", y, strconv.Err.ErrSyntax⟩, "Failed parsing id"⟩])) := by
  have hx := (ParseInt_refines x).1 a ha
  have hy := ParseInt_fallback y hb
  have h1 := Less_eq r i j x y hi hj
  have h2 := Less_eq r j i y x hj hi
  rw [hx, hy] at h1 h2
  have hkind : (Spec.failureKind y = strconv.Err.ErrSyntax ∧ Spec.fallback y = 0) ∨
      (Spec.failureKind y = strconv.Err.ErrRange ∧
        (Spec.fallback y = 2 ^ 63 - 1 ∨ Spec.fallback y = -2 ^ 63)) := by
    rcases (ParseInt_refines y).2 hb with h | h | h
    · rw [hy] at h
      simp only [Prod.mk.injEq, Option.some.injEq, strconv.NumError.mk.injEq, true_and] at h
      exact Or.inl ⟨h.2, h.1⟩
    · rw [hy] at h
      simp only [Prod.mk.injEq, Option.some.injEq, strconv.NumError.mk.injEq, true_and] at h
      exact Or.inr ⟨h.2, Or.inl h.1⟩
    · rw [hy] at h
      simp only [Prod.mk.injEq, Option.some.injEq, strconv.NumError.mk.injEq, true_and] at h
      exact Or.inr ⟨h.2, Or.inr h.1⟩
  refine ⟨hy, hkind, h1, h2, fun hs hpos => ?_⟩
  rcases hkind with ⟨_, hz⟩ | ⟨hr, _⟩
  · rw [h1, h2, hs, hz]
    have e1 : decide (a > 0) = true := by simpa using hpos
    have e2 : decide ((0 : Int) > a) = false := by
      simp only [decide_eq_false_iff_not]
      omega
    rw [e1, e2]
    exact ⟨rfl, rfl⟩
  · rw [hs] at hr
    cases hr

/-- Instance of the amended C2: `"∅∅"` is a syntax error, it is placed after
the valid id `"5"` (`Less` is true for `"5"` before `"∅∅"` and false the other
way round) and the failure is logged. -/
theorem Less_unparsable_compares_as_fallback_witness :
    Spec.decode (go "5") = some 5 ∧ Spec.decode (go "∅∅") = none ∧
    Spec.failureKind (go "∅∅") = strconv.Err.ErrSyntax ∧
    strconv.ParseInt (go "∅∅") 36 64 = (0, some ⟨"ParseInt", go "∅∅", strconv.Err.ErrSyntax⟩) ∧
    RedditIdSlice.Less [go "5", go "∅∅"] 0 1 =
      some (true, [⟨some ⟨"ParseInt", go "∅∅", strconv.Err.ErrSyntax⟩, "Failed parsing id"⟩]) ∧
    RedditIdSlice.Less [go "5", go "∅∅"] 1 0 =
      some (false, [⟨some ⟨"ParseInt", go "∅∅", strconv.Err.ErrSyntax⟩, "Failed parsing id"⟩]) :=
  have h := Less_unparsable_compares_as_fallback [go "5", go "∅∅"] 0 1 (go "5") (go "∅∅") 5
    rfl rfl (by decide) (by decide)
  have g := h.2.2.2.2 (by decide) (by decide)
  ⟨by decide, by decide, by decide, h.1.trans (by decide), g.1, g.2⟩

/-- C9: `Less` returns a result for every slice of strings and in-range
indices, and "sorts before" is a strict weak ordering: irreflexive,
asymmetric, transitive, with transitive incomparability. -/
theorem Less_strict_weak_order (r : RedditIdSlice) :
    (∀ i j, i < r.Len → j < r.Len → ∃ b log, RedditIdSlice.Less r i j = some (b, log)) ∧
    (∀ i, ¬ (RedditIdSlice.Less r i i).map Prod.fst = some true) ∧
    (∀ i j, (RedditIdSlice.Less r i j).map Prod.fst = some true →
      ¬ (RedditIdSlice.Less r j i).map Prod.fst = some true) ∧
    (∀ i j k, (RedditIdSlice.Less r i j).map Prod.fst = some true →
      (RedditIdSlice.Less r j k).map Prod.fst = some true →
      (RedditIdSlice.Less r i k).map Prod.fst = some true) ∧
    (∀ i j k, i < r.Len → j < r.Len → k < r.Len →
      ¬ (RedditIdSlice.Less r i j).map Prod.fst = some true →
      ¬ (RedditIdSlice.Less r j i).map Prod.fst = some true →
      ¬ (RedditIdSlice.Less r j k).map Prod.fst = some true →
      ¬ (RedditIdSlice.Less r k j).map Prod.fst = some true →
      ¬ (RedditIdSlice.Less r i k).map Prod.fst = some true ∧
      ¬ (RedditIdSlice.Less r k i).map Prod.fst = some true) := by
  refine ⟨fun i j hi hj => ?_, fun i h => ?_, fun i j h1 h2 => ?_, fun i j k h1 h2 => ?_,
    fun i j k hi hj hk n1 n2 n3 n4 => ?_⟩
  · have hi2 : r[i]? = some r[i] := List.getElem?_eq_getElem hi
    have hj2 : r[j]? = some r[j] := List.getElem?_eq_getElem hj
    exact ⟨_, _, Less_eq r i j _ _ hi2 hj2⟩
  · obtain ⟨x, y, hx, hy, hlt⟩ := (Less_before_iff r i i).1 h
    rw [hx] at hy
    cases hy
    omega
  · obtain ⟨x, y, hx, hy, hlt⟩ := (Less_before_iff r i j).1 h1
    obtain ⟨y2, x2, hy2, hx2, hlt2⟩ := (Less_before_iff r j i).1 h2
    rw [hx] at hx2
    rw [hy] at hy2
    cases hx2
    cases hy2
    omega
  · obtain ⟨x, y, hx, hy, hlt⟩ := (Less_before_iff r i j).1 h1
    obtain ⟨y2, z, hy2, hz, hlt2⟩ := (Less_before_iff r j k).1 h2
    rw [hy] at hy2
    cases hy2
    exact (Less_before_iff r i k).2 ⟨x, z, hx, hz, by omega⟩
  · have hi2 : r[i]? = some r[i] := List.getElem?_eq_getElem hi
    have hj2 : r[j]? = some r[j] := List.getElem?_eq_getElem hj
    have hk2 : r[k]? = some r[k] := List.getElem?_eq_getElem hk
    rw [Less_before_iff] at n1 n2 n3 n4 ⊢
    rw [Less_before_iff]
    have m1 : ¬ (strconv.ParseInt r[i] 36 64).1 > (strconv.ParseInt r[j] 36 64).1 :=
      fun h => n1 ⟨_, _, hi2, hj2, h⟩
    have m2 : ¬ (strconv.ParseInt r[j] 36 64).1 > (strconv.ParseInt r[i] 36 64).1 :=
      fun h => n2 ⟨_, _, hj2, hi2, h⟩
    have m3 : ¬ (strconv.ParseInt r[j] 36 64).1 > (strconv.ParseInt r[k] 36 64).1 :=
      fun h => n3 ⟨_, _, hj2, hk2, h⟩
    have m4 : ¬ (strconv.ParseInt r[k] 36 64).1 > (strconv.ParseInt r[j] 36 64).1 :=
      fun h => n4 ⟨_, _, hk2, hj2, h⟩
    constructor
    · rintro ⟨x, z, hx, hz, hlt⟩
      rw [hi2] at hx
      rw [hk2] at hz
      cases hx
      cases hz
      omega
    · rintro ⟨z, x, hz, hx, hlt⟩
      rw [hi2] at hx
      rw [hk2] at hz
      cases hx
      cases hz
      omega

/-- Instance of C9: `Less` is defined on a slice with two malformed ids, and
the three ids that compare as 0 are pairwise incomparable. -/
theorem Less_strict_weak_order_witness :
    (∃ b log, RedditIdSlice.Less [go "∅∅", go "0", go "!"] 0 2 = some (b, log)) ∧
    (¬ (RedditIdSlice.Less [go "∅∅", go "0", go "!"] 0 2).map Prod.fst = some true ∧
      ¬ (RedditIdSlice.Less [go "∅∅", go "0", go "!"] 2 0).map Prod.fst = some true) :=
  ⟨(Less_strict_weak_order [go "∅∅", go "0", go "!"]).1 0 2 (by decide) (by decide),
    (Less_strict_weak_order [go "∅∅", go "0", go "!"]).2.2.2.2 0 1 2 (by decide) (by decide)
      (by decide) (by decide) (by decide) (by decide) (by decide)⟩

/-! ## The destination list -/

theorem alreadyListed_iff (target : GoString) (channels : List GoString) :
    Plugin.alreadyListed target channels = true ↔ target ∈ channels := by
  induction channels with
  | nil => simp [Plugin.alreadyListed]
  | cons c rest ih =>
    rw [Plugin.alreadyListed]
    by_cases h : c = target
    · simp [h]
    · rw [if_neg h, ih]
      simp [Ne.symm h]

theorem collectChannels_cons (c : SubredditWatchItem) (rest : List SubredditWatchItem)
    (channels : List GoString) :
    Plugin.collectChannels (c :: rest) channels =
      if Spec.effectiveDestination c ∈ channels then Plugin.collectChannels rest channels
      else Plugin.collectChannels rest (channels ++ [Spec.effectiveDestination c]) := by
  rw [Plugin.collectChannels]
  by_cases h : c.Channel = []
  · simp [Spec.effectiveDestination, h, alreadyListed_iff]
  · simp [Spec.effectiveDestination, h, alreadyListed_iff]

theorem collectChannels_spec (config : List SubredditWatchItem) (channels : List GoString) :
    Plugin.collectChannels config channels =
      channels ++ (Spec.firstOccurrences (config.map Spec.effectiveDestination)).filter
        (fun y => decide (y ∉ channels)) := by
  induction config generalizing channels with
  | nil => simp [Plugin.collectChannels, Spec.firstOccurrences]
  | cons c rest ih =>
    rw [collectChannels_cons, List.map_cons, Spec.firstOccurrences]
    by_cases h : Spec.effectiveDestination c ∈ channels
    · rw [if_pos h, ih, List.filter_cons_of_neg (by simpa using h), List.filter_filter]
      congr 1
      apply List.filter_congr
      intro y _
      by_cases hy : y ∈ channels
      · simp [hy]
      · have : y ≠ Spec.effectiveDestination c := fun e => hy (e ▸ h)
        simp [hy, this]
    · rw [if_neg h, ih, List.filter_cons_of_pos (by simpa using h), List.filter_filter,
        List.append_assoc, List.singleton_append]
      congr 2
      apply List.filter_congr
      intro y _
      simp only [List.mem_append, List.mem_singleton, not_or, Bool.decide_and, ne_eq]

theorem channels_eq_firstOccurrences (config : List SubredditWatchItem) :
    Plugin.collectChannels config [] =
      Spec.firstOccurrences (config.map Spec.effectiveDestination) := by
  rw [collectChannels_spec]
  simp

theorem mem_firstOccurrences (l : List GoString) (x : GoString) :
    x ∈ Spec.firstOccurrences l ↔ x ∈ l := by
  induction l with
  | nil => simp [Spec.firstOccurrences]
  | cons a l ih =>
    rw [Spec.firstOccurrences]
    by_cases h : x = a
    · simp [h]
    · simp [h, ih]

theorem nodup_firstOccurrences (l : List GoString) : (Spec.firstOccurrences l).Nodup := by
  induction l with
  | nil => simp [Spec.firstOccurrences]
  | cons a l ih =>
    rw [Spec.firstOccurrences, List.nodup_cons]
    exact ⟨by simp [List.mem_filter], ih.filter _⟩

/-! ## Traces of `handlePost` -/

theorem deliveries_append (t1 t2 : List Event) :
    deliveries (t1 ++ t2) = deliveries t1 ++ deliveries t2 := by
  induction t1 with
  | nil => rfl
  | cons e t1 ih => cases e <;> simp [deliveries, ih]

theorem lookups_append (t1 t2 : List Event) :
    lookups (t1 ++ t2) = lookups t1 ++ lookups t2 := by
  induction t1 with
  | nil => rfl
  | cons e t1 ih => cases e <;> simp [lookups, ih]

theorem sendLoop_deliveries {σ : Type} (env : Collaborators σ) (embed : MessageEmbed)
    (channels : List GoString) (s : σ) :
    deliveries (Plugin.sendLoop env embed channels s).2 = channels.map (fun ch => (ch, embed)) ∧
      lookups (Plugin.sendLoop env embed channels s).2 = [] := by
  induction channels generalizing s with
  | nil => exact ⟨rfl, rfl⟩
  | cons ch rest ih =>
    rw [Plugin.sendLoop]
    generalize env.ChannelMessageSendEmbed s ch embed = r
    obtain ⟨s1, err⟩ := r
    obtain ⟨h1, h2⟩ := ih s1
    cases err with
    | none => simp [deliveries, lookups, h1, h2]
    | some e => simp [deliveries, lookups, h1, h2]

theorem handlePost_fail {σ : Type} (env : Collaborators σ) (s s1 : σ) (post : Link)
    (config : List SubredditWatchItem) (e : GoError)
    (h : env.GetConfig s (go "global_subreddit_watch:" ++ env.ToLower post.Subreddit)
      = (s1, config, some e)) :
    Plugin.handlePost env s post =
      (s1, [Event.GetConfig (go "global_subreddit_watch:" ++ env.ToLower post.Subreddit),
        Event.LogError e "Failed getting config from redis"], some e) := by
  simp only [Plugin.handlePost, h]

theorem handlePost_ok {σ : Type} (env : Collaborators σ) (s s1 : σ) (post : Link)
    (config : List SubredditWatchItem)
    (h : env.GetConfig s (go "global_subreddit_watch:" ++ env.ToLower post.Subreddit)
      = (s1, config, none)) :
    (Plugin.handlePost env s post).2.2 = none ∧
    lookups (Plugin.handlePost env s post).2.1 =
      [go "global_subreddit_watch:" ++ env.ToLower post.Subreddit] ∧
    deliveries (Plugin.handlePost env s post).2.1 =
      (Plugin.collectChannels config []).map (fun ch => (ch, Plugin.buildEmbed env post)) := by
  by_cases hlen : (Plugin.collectChannels config []).length < 1
  · have hnil : Plugin.collectChannels config [] = [] :=
      List.eq_nil_of_length_eq_zero (by omega)
    simp only [Plugin.handlePost, h, if_pos hlen]
    simp [hnil, lookups, deliveries]
  · obtain ⟨h1, h2⟩ := sendLoop_deliveries env (Plugin.buildEmbed env post)
      (Plugin.collectChannels config []) s1
    simp only [Plugin.handlePost, h, if_neg hlen]
    simp [lookups, deliveries, h1, h2]

theorem handlePost_lookups {σ : Type} (env : Collaborators σ) (s : σ) (post : Link) :
    lookups (Plugin.handlePost env s post).2.1 =
      [go "global_subreddit_watch:" ++ env.ToLower post.Subreddit] := by
  rcases hr : env.GetConfig s (go "global_subreddit_watch:" ++ env.ToLower post.Subreddit)
    with ⟨s1, config, err⟩
  cases err with
  | none => exact (handlePost_ok env s s1 post config hr).2.1
  | some e =>
    rw [handlePost_fail env s s1 post config e hr]
    rfl

theorem attempts_channels {σ : Type} (env : Collaborators σ) (embed : MessageEmbed)
    (channels : List GoString) (s : σ) :
    (Spec.attempts env embed channels s).map Prod.fst = channels := by
  induction channels generalizing s with
  | nil => rfl
  | cons ch rest ih => simp [Spec.attempts, ih]

theorem sendLoop_trace {σ : Type} (env : Collaborators σ) (embed : MessageEmbed)
    (channels : List GoString) (s : σ) :
    (Plugin.sendLoop env embed channels s).2 =
      (Spec.attempts env embed channels s).flatMap (Spec.attemptEvents embed) := by
  induction channels generalizing s with
  | nil => rfl
  | cons ch rest ih =>
    rw [Plugin.sendLoop, Spec.attempts, List.flatMap_cons]
    simp only []
    rw [ih]
    cases (env.ChannelMessageSendEmbed s ch embed).2 <;> simp [Spec.attemptEvents]

theorem handleLinks_lookups {σ : Type} (env : Collaborators σ) (links : List Link) (s : σ) :
    lookups (Plugin.handleLinks env links s).2 =
      links.map (fun v => go "global_subreddit_watch:" ++ env.ToLower v.Subreddit) := by
  induction links generalizing s with
  | nil => rfl
  | cons v rest ih =>
    rw [Plugin.handleLinks]
    simp only [lookups_append, handlePost_lookups, ih, List.map_cons, List.singleton_append]

/-! ## The claims about `handlePost` -/

/-- C3: when the configuration lookup succeeds, the destination list built by
`handlePost` has no duplicates, is the list of distinct effective destinations
of the records in order of first occurrence, and the delivery calls are one
per entry of it, in order; the result is nil.  Two records with the same
effective destination give one delivery call, no record gives none. -/
theorem handlePost_delivers_once_per_distinct_destination {σ : Type} (env : Collaborators σ)
    (s s1 : σ) (post : Link) (config : List SubredditWatchItem)
    (h : env.GetConfig s (go "global_subreddit_watch:" ++ env.ToLower post.Subreddit)
      = (s1, config, none)) :
    (Plugin.collectChannels config []).Nodup ∧
    Plugin.collectChannels config [] =
      Spec.firstOccurrences (config.map Spec.effectiveDestination) ∧
    deliveries (Plugin.handlePost env s post).2.1 =
      (Spec.firstOccurrences (config.map Spec.effectiveDestination)).map
        (fun ch => (ch, Plugin.buildEmbed env post)) ∧
    (Plugin.handlePost env s post).2.2 = none ∧
    (∀ c1 c2, config = [c1, c2] → Spec.effectiveDestination c1 = Spec.effectiveDestination c2 →
      deliveries (Plugin.handlePost env s post).2.1 =
        [(Spec.effectiveDestination c1, Plugin.buildEmbed env post)]) ∧
    (config = [] → deliveries (Plugin.handlePost env s post).2.1 = []) := by
  obtain ⟨hres, _, hdel⟩ := handlePost_ok env s s1 post config h
  rw [channels_eq_firstOccurrences] at hdel
  refine ⟨?_, channels_eq_firstOccurrences config, hdel, hres, fun c1 c2 hc he => ?_, fun hc => ?_⟩
  · rw [channels_eq_firstOccurrences]
    exact nodup_firstOccurrences _
  · rw [hdel, hc]
    simp [Spec.firstOccurrences, he]
  · rw [hdel, hc]
    rfl

/-- Instance of C3: the feed `golang` has three records with the effective
destinations `X`, `Y`, `X`; the post is delivered to `X` and to `Y`, once
each. -/
theorem handlePost_delivers_once_per_distinct_destination_witness :
    Plugin.collectChannels [⟨go "X", []⟩, ⟨go "G", go "Y"⟩, ⟨go "G", go "X"⟩] [] = [go "X", go "Y"] ∧
    deliveries (Plugin.handlePost Demo.env 0 Demo.post).2.1 =
      [(go "X", Plugin.buildEmbed Demo.env Demo.post),
       (go "Y", Plugin.buildEmbed Demo.env Demo.post)] ∧
    (Plugin.handlePost Demo.env 0 Demo.post).2.2 = none :=
  have h := handlePost_delivers_once_per_distinct_destination Demo.env 0 1 Demo.post
    [⟨go "X", []⟩, ⟨go "G", go "Y"⟩, ⟨go "G", go "X"⟩] (by decide)
  ⟨by decide, h.2.2.1.trans (by decide), h.2.2.2.1⟩

/-- C4: whatever the outcomes of the sends, `handlePost` attempts the delivery
to every destination of its list once, in list order, logs the failed ones and
returns nil: the effects after the lookup and the info line are the attempts
of `Spec.attempts`, whose destinations are the whole list. -/
theorem handlePost_attempts_every_destination {σ : Type} (env : Collaborators σ)
    (s s1 : σ) (post : Link) (config : List SubredditWatchItem)
    (h : env.GetConfig s (go "global_subreddit_watch:" ++ env.ToLower post.Subreddit)
      = (s1, config, none))
    (hne : Plugin.collectChannels config [] ≠ []) :
    (Plugin.handlePost env s post).2.2 = none ∧
    (Plugin.handlePost env s post).2.1.drop 2 =
      (Spec.attempts env (Plugin.buildEmbed env post) (Plugin.collectChannels config []) s1).flatMap
        (Spec.attemptEvents (Plugin.buildEmbed env post)) ∧
    (Spec.attempts env (Plugin.buildEmbed env post) (Plugin.collectChannels config []) s1).map
      Prod.fst = Plugin.collectChannels config [] ∧
    deliveries (Plugin.handlePost env s post).2.1 =
      (Plugin.collectChannels config []).map (fun ch => (ch, Plugin.buildEmbed env post)) := by
  obtain ⟨hres, _, hdel⟩ := handlePost_ok env s s1 post config h
  refine ⟨hres, ?_, attempts_channels _ _ _ _, hdel⟩
  have hlen : ¬ (Plugin.collectChannels config []).length < 1 := by
    cases hc : Plugin.collectChannels config [] with
    | nil => exact absurd hc hne
    | cons a l => simp
  simp only [Plugin.handlePost, h, if_neg hlen, List.drop_succ_cons, List.drop_zero]
  exact sendLoop_trace _ _ _ _

/-- Instance of C4: the send to `X` fails and is logged, the send to `Y` is
attempted all the same. -/
theorem handlePost_attempts_every_destination_witness :
    Plugin.collectChannels [⟨go "X", []⟩, ⟨go "G", go "Y"⟩, ⟨go "G", go "X"⟩] [] ≠ [] ∧
    (Plugin.handlePost Demo.env 0 Demo.post).2.1.drop 2 =
      [Event.ChannelMessageSendEmbed (go "X") (Plugin.buildEmbed Demo.env Demo.post),
       Event.LogError ⟨"HTTP 403 Forbidden"⟩ "Error posting message",
       Event.ChannelMessageSendEmbed (go "Y") (Plugin.buildEmbed Demo.env Demo.post)] ∧
    (Plugin.handlePost Demo.env 0 Demo.post).2.2 = none :=
  have h := handlePost_attempts_every_destination Demo.env 0 1 Demo.post
    [⟨go "X", []⟩, ⟨go "G", go "Y"⟩, ⟨go "G", go "X"⟩] (by decide) (by decide)
  ⟨by decide, h.2.1.trans (by decide), h.1⟩

/-- C5: the destinations `handlePost` delivers to are the effective
destinations of the records: the `Guild` of a record whose `Channel` is empty,
the `Channel` itself otherwise; and they are free of duplicates as effective
destinations, so a record that falls back to a destination already listed
adds nothing. -/
theorem handlePost_effective_destination {σ : Type} (env : Collaborators σ)
    (s s1 : σ) (post : Link) (config : List SubredditWatchItem)
    (h : env.GetConfig s (go "global_subreddit_watch:" ++ env.ToLower post.Subreddit)
      = (s1, config, none)) :
    (∀ ch, ch ∈ (deliveries (Plugin.handlePost env s post).2.1).map Prod.fst ↔
      ∃ c ∈ config, (c.Channel = [] ∧ ch = c.Guild) ∨ (c.Channel ≠ [] ∧ ch = c.Channel)) ∧
    ((deliveries (Plugin.handlePost env s post).2.1).map Prod.fst).Nodup ∧
    (∀ c, config = [c] → c.Channel = [] →
      (deliveries (Plugin.handlePost env s post).2.1).map Prod.fst = [c.Guild]) ∧
    (∀ c, config = [c] → c.Channel ≠ [] →
      (deliveries (Plugin.handlePost env s post).2.1).map Prod.fst = [c.Channel]) ∧
    (∀ c1 c2, config = [c1, c2] → c1.Channel = [] → c2.Channel ≠ [] → c2.Channel = c1.Guild →
      (deliveries (Plugin.handlePost env s post).2.1).map Prod.fst = [c1.Guild]) := by
  obtain ⟨_, _, hdel⟩ := handlePost_ok env s s1 post config h
  have hmap : (deliveries (Plugin.handlePost env s post).2.1).map Prod.fst
      = Spec.firstOccurrences (config.map Spec.effectiveDestination) := by
    rw [hdel, channels_eq_firstOccurrences, List.map_map]
    exact (List.map_congr_left (fun _ _ => rfl)).trans (List.map_id _)
  rw [hmap]
  refine ⟨fun ch => ?_, nodup_firstOccurrences _, fun c hc he => ?_, fun c hc he => ?_,
    fun c1 c2 hc h1 h3 h2 => ?_⟩
  · rw [mem_firstOccurrences, List.mem_map]
    constructor
    · rintro ⟨c, hc, rfl⟩
      refine ⟨c, hc, ?_⟩
      by_cases he : c.Channel = []
      · exact Or.inl ⟨he, by simp [Spec.effectiveDestination, he]⟩
      · exact Or.inr ⟨he, by simp [Spec.effectiveDestination, he]⟩
    · rintro ⟨c, hc, ⟨he, rfl⟩ | ⟨he, rfl⟩⟩
      · exact ⟨c, hc, by simp [Spec.effectiveDestination, he]⟩
      · exact ⟨c, hc, by simp [Spec.effectiveDestination, he]⟩
  · subst hc
    simp [Spec.firstOccurrences, Spec.effectiveDestination, he]
  · subst hc
    simp [Spec.firstOccurrences, Spec.effectiveDestination, he]
  · subst hc
    have h4 : c1.Guild ≠ [] := fun h5 => h3 (h2.trans h5)
    simp [Spec.firstOccurrences, Spec.effectiveDestination, h1, h2, h4]

/-- Instance of C5: the first record of the feed `golang` has an empty
`Channel` and the guild `X`, the third has the channel `X`; the destinations
are `X` and `Y`. -/
theorem handlePost_effective_destination_witness :
    (deliveries (Plugin.handlePost Demo.env 0 Demo.post).2.1).map Prod.fst = [go "X", go "Y"] ∧
    (∀ ch, ch ∈ (deliveries (Plugin.handlePost Demo.env 0 Demo.post).2.1).map Prod.fst ↔
      ∃ c ∈ [(⟨go "X", []⟩ : SubredditWatchItem), ⟨go "G", go "Y"⟩, ⟨go "G", go "X"⟩],
        (c.Channel = [] ∧ ch = c.Guild) ∨ (c.Channel ≠ [] ∧ ch = c.Channel)) :=
  ⟨by decide,
    (handlePost_effective_destination Demo.env 0 1 Demo.post
      [⟨go "X", []⟩, ⟨go "G", go "Y"⟩, ⟨go "G", go "X"⟩] (by decide)).1⟩

/-- C6: `handlePost` returns the error of the configuration lookup and nothing
else: its result is non-nil exactly when the lookup fails, and then it is the
lookup's error and no delivery call is made. -/
theorem handlePost_error_iff_lookup_fails {σ : Type} (env : Collaborators σ) (s : σ)
    (post : Link) :
    ((Plugin.handlePost env s post).2.2 ≠ none ↔
      (env.GetConfig s (go "global_subreddit_watch:" ++ env.ToLower post.Subreddit)).2.2 ≠ none) ∧
    (Plugin.handlePost env s post).2.2 =
      (env.GetConfig s (go "global_subreddit_watch:" ++ env.ToLower post.Subreddit)).2.2 ∧
    (∀ e, (env.GetConfig s (go "global_subreddit_watch:" ++ env.ToLower post.Subreddit)).2.2
        = some e →
      (Plugin.handlePost env s post).2.1 =
        [Event.GetConfig (go "global_subreddit_watch:" ++ env.ToLower post.Subreddit),
         Event.LogError e "Failed getting config from redis"] ∧
      deliveries (Plugin.handlePost env s post).2.1 = []) := by
  rcases hr : env.GetConfig s (go "global_subreddit_watch:" ++ env.ToLower post.Subreddit)
    with ⟨s1, config, err⟩
  cases err with
  | none =>
    have h := (handlePost_ok env s s1 post config hr).1
    refine ⟨by simp [h], h, fun e he => by cases he⟩
  | some e =>
    have h := handlePost_fail env s s1 post config e hr
    refine ⟨by simp [h], by simp [h], fun e2 he => ?_⟩
    cases he
    rw [h]
    exact ⟨rfl, rfl⟩

/-- Instance of C6: the store is unreachable for the feed `down`; the post is
not delivered and the error comes back. -/
theorem handlePost_error_iff_lookup_fails_witness :
    (Plugin.handlePost Demo.env 0 { Demo.post with Subreddit := go "down" }).2.1 =
      [Event.GetConfig (go "global_subreddit_watch:" ++ Demo.env.ToLower (go "down")),
       Event.LogError ⟨"redis: connection refused"⟩ "Failed getting config from redis"] ∧
    deliveries (Plugin.handlePost Demo.env 0 { Demo.post with Subreddit := go "down" }).2.1 = [] :=
  (handlePost_error_iff_lookup_fails Demo.env 0 { Demo.post with Subreddit := go "down" }).2.2
    ⟨"redis: connection refused"⟩ (by decide)

/-- C8: `handlePost` makes one configuration lookup, with the key
`"global_subreddit_watch:"` followed by the lower-cased subreddit name; two
posts whose subreddit names are equal after lower-casing query the same key. -/
theorem handlePost_lookup_key_case_insensitive {σ : Type} (env : Collaborators σ) (s s' : σ)
    (post post' : Link) (h : env.ToLower post.Subreddit = env.ToLower post'.Subreddit) :
    lookups (Plugin.handlePost env s post).2.1 =
      [go "global_subreddit_watch:" ++ env.ToLower post.Subreddit] ∧
    (Plugin.handlePost env s post).2.1.head? =
      some (Event.GetConfig (go "global_subreddit_watch:" ++ env.ToLower post.Subreddit)) ∧
    lookups (Plugin.handlePost env s' post').2.1 = lookups (Plugin.handlePost env s post).2.1 := by
  refine ⟨handlePost_lookups env s post, ?_, ?_⟩
  · rcases hr : env.GetConfig s (go "global_subreddit_watch:" ++ env.ToLower post.Subreddit)
      with ⟨s1, config, err⟩
    cases err with
    | none =>
      by_cases hlen : (Plugin.collectChannels config []).length < 1
      · simp only [Plugin.handlePost, hr, if_pos hlen, List.head?_cons]
      · simp only [Plugin.handlePost, hr, if_neg hlen, List.head?_cons]
    | some e =>
      rw [handlePost_fail env s s1 post config e hr]
      rfl
  · rw [handlePost_lookups, handlePost_lookups, h]

/-- Instance of C8: the feeds `GoLang` and `GOLANG` are looked up under the
key `global_subreddit_watch:golang`. -/
theorem handlePost_lookup_key_case_insensitive_witness :
    Demo.env.ToLower (go "GoLang") = go "golang" ∧
    lookups (Plugin.handlePost Demo.env 0 Demo.post).2.1 =
      [go "global_subreddit_watch:" ++ Demo.env.ToLower Demo.post.Subreddit] ∧
    lookups (Plugin.handlePost Demo.env 7 { Demo.post with Subreddit := go "GOLANG" }).2.1 =
      lookups (Plugin.handlePost Demo.env 0 Demo.post).2.1 :=
  have h := handlePost_lookup_key_case_insensitive Demo.env 0 7 Demo.post
    { Demo.post with Subreddit := go "GOLANG" } (by decide)
  ⟨by decide, h.1, h.2.2⟩

/-! ## The claims about `runBot` -/

/-- C7: when the fetcher returns an error, the tick consists of the fetch and
one log line: no configuration lookup and no delivery is made, the loop is
still `Running`, and it goes on with the rest of its schedule. -/
theorem runBot_fetch_error_skips_tick {σ : Type} (env : Collaborators σ) (s s1 : σ)
    (links : List Link) (e : GoError) (h : env.GetNewPosts s = (s1, links, some e)) :
    Plugin.iteration env s Plugin.Select.tick =
      (s1, [Event.GetNewPosts, Event.LogError e "Error fetchind new links"],
        Plugin.LoopState.Running) ∧
    lookups (Plugin.iteration env s Plugin.Select.tick).2.1 = [] ∧
    deliveries (Plugin.iteration env s Plugin.Select.tick).2.1 = [] ∧
    (∀ rest, Plugin.loop env (Plugin.Select.tick :: rest) s =
      ((Plugin.loop env rest s1).1,
        [Event.GetNewPosts, Event.LogError e "Error fetchind new links"]
          ++ (Plugin.loop env rest s1).2.1,
        (Plugin.loop env rest s1).2.2)) := by
  have hit : Plugin.iteration env s Plugin.Select.tick =
      (s1, [Event.GetNewPosts, Event.LogError e "Error fetchind new links"],
        Plugin.LoopState.Running) := by
    simp only [Plugin.iteration, h]
  refine ⟨hit, by rw [hit]; rfl, by rw [hit]; rfl, fun rest => ?_⟩
  rw [Plugin.loop, hit]

/-- Instance of C7: the first fetch of the demo world fails; the second tick
still takes place. -/
theorem runBot_fetch_error_skips_tick_witness :
    Plugin.iteration Demo.env 0 Plugin.Select.tick =
      (1, [Event.GetNewPosts, Event.LogError ⟨"reddit: timeout"⟩ "Error fetchind new links"],
        Plugin.LoopState.Running) ∧
    Plugin.loop Demo.env [Plugin.Select.tick, Plugin.Select.tick] 0 =
      ((Plugin.loop Demo.env [Plugin.Select.tick] 1).1,
        [Event.GetNewPosts, Event.LogError ⟨"reddit: timeout"⟩ "Error fetchind new links"]
          ++ (Plugin.loop Demo.env [Plugin.Select.tick] 1).2.1,
        (Plugin.loop Demo.env [Plugin.Select.tick] 1).2.2) :=
  have h := runBot_fetch_error_skips_tick Demo.env 0 1 [] ⟨"reddit: timeout"⟩ (by decide)
  ⟨h.1, h.2.2.2 [Plugin.Select.tick]⟩

/-- C10: when the fetcher returns links without error, the tick runs
`handlePost` on every link, once and in the fetcher's order, whatever the
earlier runs returned: the configuration lookups of the tick (one per run of
`handlePost`) are those of the links, in order, and the loop is still
`Running`. -/
theorem runBot_tick_handles_every_link {σ : Type} (env : Collaborators σ) (s s1 : σ)
    (links : List Link) (h : env.GetNewPosts s = (s1, links, none)) :
    Plugin.iteration env s Plugin.Select.tick =
      ((Plugin.handleLinks env links s1).1,
        Event.GetNewPosts :: (Plugin.handleLinks env links s1).2, Plugin.LoopState.Running) ∧
    lookups (Plugin.iteration env s Plugin.Select.tick).2.1 =
      links.map (fun v => go "global_subreddit_watch:" ++ env.ToLower v.Subreddit) ∧
    (∀ v rest s2, Plugin.handleLinks env (v :: rest) s2 =
      ((Plugin.handleLinks env rest (Plugin.handlePost env s2 v).1).1,
        (Plugin.handlePost env s2 v).2.1
          ++ (Plugin.handleLinks env rest (Plugin.handlePost env s2 v).1).2)) := by
  have hit : Plugin.iteration env s Plugin.Select.tick =
      ((Plugin.handleLinks env links s1).1,
        Event.GetNewPosts :: (Plugin.handleLinks env links s1).2, Plugin.LoopState.Running) := by
    cases links with
    | nil => simp [Plugin.iteration, h, Plugin.handleLinks]
    | cons v rest => simp [Plugin.iteration, h]
  refine ⟨hit, ?_, fun v rest s2 => rfl⟩
  rw [hit]
  exact handleLinks_lookups env links s1

/-- Instance of C10: the second fetch of the demo world returns a post of the
feed `down`, whose lookup fails, and a post of the feed `GoLang`; the second
post is handled and delivered all the same. -/
theorem runBot_tick_handles_every_link_witness :
    lookups (Plugin.iteration Demo.env 1 Plugin.Select.tick).2.1 =
      [⟨go "b", go "alice", go "down", go "t1", [], go "u1", false⟩, Demo.post].map
        (fun v => go "global_subreddit_watch:" ++ Demo.env.ToLower v.Subreddit) ∧
    (deliveries (Plugin.iteration Demo.env 1 Plugin.Select.tick).2.1).map Prod.fst =
      [go "X", go "Y"] :=
  ⟨(runBot_tick_handles_every_link Demo.env 1 2
      [⟨go "b", go "alice", go "down", go "t1", [], go "u1", false⟩, Demo.post] (by decide)).2.1,
    by decide⟩
